import Mathlib

/-!
Verification of the cover-tree node and partition primitives of the grandma
crate, shallowly embedded from `src/grandma/src/node.rs` and
`src/grandma/src/data_caches.rs`.

Modelling conventions:
* `f32` distance and radius values are modelled as exact rationals `ℚ`; the
  properties verified here are order comparisons, which agree with `f32`
  comparisons on ordinary (non-NaN, non-overflowing) values.
* The external metric provider (the pointcloud crate) is passed in as
  explicit oracle functions — a point-to-index distance oracle, an
  index-to-index distance oracle, and a minimum-pairwise-distance oracle —
  matching the capability surface used by the two files.
* Rust methods taking `&mut self` and returning `Result` become functions
  returning the `Except` result paired with the updated value.
* Rust panics (`unwrap` on `None`, `gen_range` over an empty range) are
  modelled by an `Option` result, `none` on the panicking inputs.
* The random position drawn by `thread_rng` inside `pick_center` becomes an
  explicit position argument, quantified over every position the random
  source may produce.
-/

namespace Grandma

/-- Point index into the metric provider's collection (`PointIndex`). -/
abbrev PointIndex := Nat

/-- Node address: a (scale index, center point index) pair. -/
abbrev NodeAddress := Int × PointIndex

/-- Stand-in for the external `MetaSummary` of the pointcloud crate; only
emptiness is relevant to the node code. -/
structure MetaSummary where
  data : List PointIndex
  deriving DecidableEq

/-- Mirrors `MetaSummary::new()`: the empty summary. -/
def MetaSummary.new : MetaSummary := ⟨[]⟩

/-- Mirrors `NodeChildren` in `node.rs`: the nested child's scale index plus
the sibling children addresses. -/
structure NodeChildren where
  nested_scale : Int
  addresses : List NodeAddress
  deriving DecidableEq

/-- Mirrors `CoverNode` in `node.rs`. -/
structure CoverNode where
  address : NodeAddress
  radius : ℚ
  cover_count : Nat
  singles_summary : Option MetaSummary
  children : Option NodeChildren
  singles_indexes : List PointIndex
  deriving DecidableEq

/-- Error kinds of `MalwareBrotError` produced by the node mutation API. -/
inductive MalwareBrotError
  | DoubleNest
  | InsertBeforeNest
  deriving DecidableEq

/-- Mirrors `CoverNode::new`: a blank leaf node. -/
def CoverNode.new (address : NodeAddress) : CoverNode :=
  { address := address
    radius := 0
    cover_count := 0
    singles_summary := none
    children := none
    singles_indexes := [] }

/-- Mirrors `CoverNode::is_leaf`. -/
def CoverNode.is_leaf (n : CoverNode) : Bool :=
  n.children.isNone

/-- Mirrors `CoverNode::insert_nested_child`. Note that the source increments
`cover_count` before checking for an existing child structure. -/
def CoverNode.insert_nested_child (n : CoverNode) (scale_index : Int)
    (coverage : Nat) : Except MalwareBrotError Unit × CoverNode :=
  let n := { n with cover_count := n.cover_count + coverage }
  match n.children with
  | some _ => (Except.error MalwareBrotError.DoubleNest, n)
  | none =>
      (Except.ok (),
        { n with children := some { nested_scale := scale_index, addresses := [] } })

/-- Mirrors `CoverNode::remove_children` (`self.children.take()`). -/
def CoverNode.remove_children (n : CoverNode) : Option NodeChildren × CoverNode :=
  (n.children, { n with children := none })

/-- Mirrors `CoverNode::insert_child`. As in the source, `cover_count` is
incremented before the leaf check. -/
def CoverNode.insert_child (n : CoverNode) (address : NodeAddress)
    (coverage : Nat) : Except MalwareBrotError Unit × CoverNode :=
  let n := { n with cover_count := n.cover_count + coverage }
  match n.children with
  | some children =>
      (Except.ok (),
        { n with
            children := some { children with addresses := children.addresses ++ [address] } })
  | none => (Except.error MalwareBrotError.InsertBeforeNest, n)

/-- Mirrors `CoverNode::insert_singletons`. -/
def CoverNode.insert_singletons (n : CoverNode) (addresses : List PointIndex) :
    CoverNode :=
  { n with
      cover_count := n.cover_count + addresses.length
      singles_indexes := n.singles_indexes ++ addresses }

/-- Mirrors `CoverNode::insert_singleton`. -/
def CoverNode.insert_singleton (n : CoverNode) (address : PointIndex) : CoverNode :=
  { n with
      cover_count := n.cover_count + 1
      singles_indexes := n.singles_indexes ++ [address] }

/-- Mirrors `CoverNode::set_radius`. -/
def CoverNode.set_radius (n : CoverNode) (radius : ℚ) : CoverNode :=
  { n with radius := radius }

/-- Mirrors `CoverNode::check_seperation`: gathers the singles, the center and
the children centers, asks the metric provider for the minimum pairwise
distance of that set, and returns `scale > adj.min()`. -/
def CoverNode.check_seperation (n : CoverNode) (scale : ℚ)
    (min_pairwise : List PointIndex → ℚ) : Bool :=
  let nodes := n.singles_indexes ++ [n.address.2] ++
    (match n.children with
     | some children => children.addresses.map (fun a => a.2)
     | none => [])
  decide (min_pairwise nodes < scale)

/-- Mirrors `CoveredData` in `data_caches.rs`: parallel index/distance arrays
plus the chosen center. -/
structure CoveredData where
  dists : List ℚ
  coverage : List PointIndex
  center_index : PointIndex
  deriving DecidableEq

/-- Mirrors `UncoveredData` in `data_caches.rs`. -/
structure UncoveredData where
  coverage : List PointIndex
  deriving DecidableEq

/-- Mirrors the single close/far loop shared verbatim by
`UncoveredData::pick_center` and `CoveredData::split`: walks the parallel
(index, distance) pairs in order, pushing pairs with distance strictly below
the threshold to the close bucket and the remaining indexes to far. -/
def splitPass (thresh : ℚ) :
    List (PointIndex × ℚ) → List (PointIndex × ℚ) × List PointIndex
  | [] => ([], [])
  | (i, d) :: rest =>
    let r := splitPass thresh rest
    if d < thresh then ((i, d) :: r.1, r.2) else (r.1, i :: r.2)

/-- Mirrors `CoveredData::split`: consumes the bucket and partitions it into a
close `CoveredData` (keeping the original center) and a far `UncoveredData`. -/
def CoveredData.split (s : CoveredData) (thresh : ℚ) :
    CoveredData × UncoveredData :=
  let r := splitPass thresh (s.coverage.zip s.dists)
  ({ dists := r.1.map (fun p => p.2)
     coverage := r.1.map (fun p => p.1)
     center_index := s.center_index },
   { coverage := r.2 })

/-- Mirrors `UncoveredData::pick_center`. The position drawn by the random
source is the explicit `pos` argument; `gen_range` over an empty range (and
hence an empty pool) panics, modelled by `none`. `dist_to_index c i` models
`distances_to_point_index(c, ...)`. The mutated residual pool is returned
alongside the fresh covered bucket. -/
def UncoveredData.pick_center (u : UncoveredData) (radius : ℚ) (pos : Nat)
    (dist_to_index : PointIndex → PointIndex → ℚ) :
    Option (CoveredData × UncoveredData) :=
  if h : pos < u.coverage.length then
    let center_index := u.coverage.get ⟨pos, h⟩
    let rest := u.coverage.eraseIdx pos
    let dists := rest.map (dist_to_index center_index)
    let r := splitPass radius (rest.zip dists)
    some ({ dists := r.1.map (fun p => p.2)
            coverage := r.1.map (fun p => p.1)
            center_index := center_index },
          { coverage := r.2 })
  else none

/-- Mirrors `UncoveredData::len`. -/
def UncoveredData.len (u : UncoveredData) : Nat := u.coverage.length

/-- Mirrors `CoveredData::new`: takes the metric provider's reference index
list, pops the last element as center (`unwrap` panics on an empty list,
modelled by `none`) and records distances from the center to the rest. -/
def CoveredData.new (reference_indexes : List PointIndex)
    (dist_to_index : PointIndex → PointIndex → ℚ) : Option CoveredData :=
  match reference_indexes.getLast? with
  | none => none
  | some center_index =>
      let coverage := reference_indexes.dropLast
      some { dists := coverage.map (dist_to_index center_index)
             coverage := coverage
             center_index := center_index }

/-- Mirrors `CoveredData::len` (covered count plus the center). -/
def CoveredData.len (s : CoveredData) : Nat := s.coverage.length + 1

/-- Mirrors the `NodeProto` record layout of `tree_file_format` used by
`CoverNode::save` and `CoverNode::load`. -/
structure NodeProto where
  cover_count : Nat
  center_index : PointIndex
  radius : ℚ
  outlier_point_indexes : List PointIndex
  is_leaf : Bool
  nested_scale_index : Int
  children_scale_indexes : List Int
  children_point_indexes : List PointIndex
  deriving DecidableEq

/-- Mirrors `NodeProto::new()` with protobuf field defaults. -/
def NodeProto.new : NodeProto :=
  { cover_count := 0
    center_index := 0
    radius := 0
    outlier_point_indexes := []
    is_leaf := false
    nested_scale_index := 0
    children_scale_indexes := []
    children_point_indexes := [] }

/-- Mirrors `CoverNode::save`. -/
def CoverNode.save (n : CoverNode) : NodeProto :=
  let proto := { NodeProto.new with
    cover_count := n.cover_count
    center_index := n.address.2
    radius := n.radius
    outlier_point_indexes := n.singles_indexes }
  match n.children with
  | some children =>
      { proto with
          is_leaf := false
          nested_scale_index := children.nested_scale
          children_scale_indexes := children.addresses.map (fun a => a.1)
          children_point_indexes := children.addresses.map (fun a => a.2) }
  | none => { proto with is_leaf := true }

/-- Mirrors `CoverNode::load`: rebuilds the node from a record, resetting the
singleton summary to a fresh empty `MetaSummary`. -/
def CoverNode.load (scale_index : Int) (node_proto : NodeProto) : CoverNode :=
  { address := (scale_index, node_proto.center_index)
    radius := node_proto.radius
    cover_count := node_proto.cover_count
    singles_summary := some MetaSummary.new
    children :=
      if node_proto.is_leaf then none
      else some { nested_scale := node_proto.nested_scale_index
                  addresses :=
                    node_proto.children_scale_indexes.zip
                      node_proto.children_point_indexes }
    singles_indexes := node_proto.outlier_point_indexes }

/-- Modelled from the spec: the Query Heap contract of section 6. The heap
itself (`KnnQueryHeap` in `query_tools`) is outside the two in-scope files, so
it is modelled from its stated contract: `knn_candidates` is the bounded
best-k candidate list (the k smallest distances seen so far, ties broken by
insertion order), `nodes` the queue of unexpanded node entries
(address, distance, informational parent), and `offered` a trace of every
candidate ever offered through `push_outliers`. -/
structure KnnQueryHeap where
  k : Nat
  knn_candidates : List (ℚ × PointIndex)
  nodes : List (NodeAddress × ℚ × Option NodeAddress)
  offered : List (PointIndex × ℚ)
  deriving DecidableEq

/-- Modelled from the spec: stable insertion into the distance-sorted
candidate list, placing a new candidate after existing candidates of equal
distance. -/
def insertCandidate : List (ℚ × PointIndex) → ℚ × PointIndex → List (ℚ × PointIndex)
  | [], c => [c]
  | x :: xs, c => if c.1 < x.1 then c :: x :: xs else x :: insertCandidate xs c

/-- Modelled from the spec: `push_outliers` offers (index, distance)
candidates and the heap retains only the k smallest distances seen so far. -/
def KnnQueryHeap.push_outliers (h : KnnQueryHeap) (indexes : List PointIndex)
    (dists : List ℚ) : KnnQueryHeap :=
  let pairs := indexes.zip dists
  { h with
      offered := h.offered ++ pairs
      knn_candidates :=
        (pairs.foldl (fun acc p => insertCandidate acc (p.2, p.1))
          h.knn_candidates).take h.k }

/-- Modelled from the spec: `push_nodes` queues node-level entries for later
expansion, tagged with an informational parent address. -/
def KnnQueryHeap.push_nodes (h : KnnQueryHeap) (addresses : List NodeAddress)
    (dists : List ℚ) (parent : Option NodeAddress) : KnnQueryHeap :=
  { h with nodes := h.nodes ++ (addresses.zip dists).map (fun p => (p.1, p.2, parent)) }

/-- Modelled from the spec: `node_len()`, the number of queued node entries. -/
def KnnQueryHeap.node_len (h : KnnQueryHeap) : Nat := h.nodes.length

/-- Modelled from the spec: `len()`, the number of best-k candidates held. -/
def KnnQueryHeap.len (h : KnnQueryHeap) : Nat := h.knn_candidates.length

/-- Modelled from the spec: `KnnQueryHeap::new(k, ...)`, an empty heap of
capacity k. -/
def KnnQueryHeap.empty (k : Nat) : KnnQueryHeap :=
  { k := k, knn_candidates := [], nodes := [], offered := [] }

/-- Mirrors `CoverNode::singleton_knn`: offers every singleton with its
distance to the query point. `dist_to_point i` models
`distances_to_point(point, ...)` for index i. -/
def CoverNode.singleton_knn (n : CoverNode) (dist_to_point : PointIndex → ℚ)
    (heap : KnnQueryHeap) : KnnQueryHeap :=
  heap.push_outliers n.singles_indexes (n.singles_indexes.map dist_to_point)

/-- Mirrors `CoverNode::child_knn`: on a routing node, queues the implicit
nested child (same center, nested scale) with the center distance and then
every sibling child with its own center distance; does nothing on a leaf. -/
def CoverNode.child_knn (n : CoverNode) (dist_to_center : Option ℚ)
    (dist_to_point : PointIndex → ℚ) (heap : KnnQueryHeap) : KnnQueryHeap :=
  let d := dist_to_center.getD (dist_to_point n.address.2)
  match n.children with
  | some children =>
      let heap := heap.push_nodes [(children.nested_scale, n.address.2)] [d] none
      heap.push_nodes children.addresses
        (children.addresses.map (fun a => dist_to_point a.2)) (some n.address)
  | none => heap

/-- Mirrors `CoverNode::knn`: `singleton_knn` then `child_knn`, and finally the
node's own center is offered as a best-k candidate when the node is a leaf. -/
def CoverNode.knn (n : CoverNode) (dist_to_center : Option ℚ)
    (dist_to_point : PointIndex → ℚ) (heap : KnnQueryHeap) : KnnQueryHeap :=
  let heap := n.singleton_knn dist_to_point heap
  let d := dist_to_center.getD (dist_to_point n.address.2)
  let heap := n.child_knn (some d) dist_to_point heap
  if n.children.isNone then heap.push_outliers [n.address.2] [d] else heap

/-- Routing-node fixture mirroring the `create_test_node` test fixture of
`node.rs`: three singles and three sibling children under a nested scale. -/
def testNode : CoverNode :=
  { address := (0, 0)
    radius := 1
    cover_count := 8
    singles_summary := none
    children := some { nested_scale := 0, addresses := [(-4, 1), (-4, 2), (-4, 3)] }
    singles_indexes := [4, 5, 6] }

/-- Leaf-node fixture mirroring `create_test_leaf_node` of `node.rs`. -/
def testLeafNode : CoverNode :=
  { address := (0, 0)
    radius := 1
    cover_count := 8
    singles_summary := none
    children := none
    singles_indexes := [1, 2, 3, 4, 5, 6] }

/-- Concrete index-to-index distance oracle for instantiations: the absolute
difference of the indexes, as a rational. -/
def distOracle : PointIndex → PointIndex → ℚ :=
  fun a b => ((max a b - min a b : Nat) : ℚ)

/-- Concrete query-point distance oracle for instantiations. -/
def distToQuery : PointIndex → ℚ :=
  fun i => (i : ℚ)

/-- Insert operations available during node construction (C6), with the
coverage increment the spec assigns to each. -/
inductive InsertOp
  | nested (scale_index : Int) (coverage : Nat)
  | child (address : NodeAddress) (coverage : Nat)
  | single (address : PointIndex)
  | singles (addresses : List PointIndex)

/-- Coverage increment of one insert call: the coverage argument for child or
nested inserts, 1 for a singleton, the list length for a singleton batch. -/
def InsertOp.increment : InsertOp → Nat
  | nested _ c => c
  | child _ c => c
  | single _ => 1
  | singles l => l.length

/-- Applies one insert call to a node, keeping the updated node whether or not
the call succeeded, exactly as a caller holding the mutated node would. -/
def applyInsert (n : CoverNode) : InsertOp → CoverNode
  | .nested s c => (n.insert_nested_child s c).2
  | .child a c => (n.insert_child a c).2
  | .single a => n.insert_singleton a
  | .singles l => n.insert_singletons l

lemma applyInsert_cover_count (n : CoverNode) (op : InsertOp) :
    (applyInsert n op).cover_count = n.cover_count + op.increment := by
  cases op with
  | nested s c =>
      cases h : n.children <;>
        simp [applyInsert, CoverNode.insert_nested_child, InsertOp.increment, h]
  | child a c =>
      cases h : n.children <;>
        simp [applyInsert, CoverNode.insert_child, InsertOp.increment, h]
  | single a => simp [applyInsert, CoverNode.insert_singleton, InsertOp.increment]
  | singles l => simp [applyInsert, CoverNode.insert_singletons, InsertOp.increment]

lemma foldl_applyInsert_cover_count (n : CoverNode) (ops : List InsertOp) :
    (ops.foldl applyInsert n).cover_count =
      n.cover_count + (ops.map InsertOp.increment).sum := by
  induction ops generalizing n with
  | nil => simp
  | cons op ops ih =>
      simp [List.foldl_cons, ih, applyInsert_cover_count, Nat.add_assoc]

/-- C1 counterexample: on the already-routing fixture node,
`insert_nested_child` fails with `DoubleNest` and yet `cover_count` has moved
from 8 to 13 — a partial mutation remains after the failed call, contrary to
the claim. -/
theorem insert_nested_child_fail_mutates :
    (testNode.insert_nested_child (-1) 5).1 =
        Except.error MalwareBrotError.DoubleNest ∧
    testNode.cover_count = 8 ∧
    (testNode.insert_nested_child (-1) 5).2.cover_count = 13 :=
  ⟨rfl, rfl, rfl⟩

/-- C1 (amended): a second `insert_nested_child` on a routing node fails with
`DoubleNest` and an `insert_child` on a leaf fails with `InsertBeforeNest`; in
both cases every field other than `cover_count` is unchanged, but
`cover_count` is still incremented by `coverage`, because the source
increments it before performing the check. -/
theorem insert_fail_frame (n : CoverNode) (s : Int) (a : NodeAddress) (c : Nat) :
    (n.children ≠ none →
      n.insert_nested_child s c =
        (Except.error MalwareBrotError.DoubleNest,
         { n with cover_count := n.cover_count + c })) ∧
    (n.children = none →
      n.insert_child a c =
        (Except.error MalwareBrotError.InsertBeforeNest,
         { n with cover_count := n.cover_count + c })) := by
  cases h : n.children <;>
    simp [CoverNode.insert_nested_child, CoverNode.insert_child, h]

/-- C1 (amended) witness at the fixture nodes. -/
theorem insert_fail_frame_witness :
    testNode.insert_nested_child (-1) 5 =
      (Except.error MalwareBrotError.DoubleNest,
       { testNode with cover_count := testNode.cover_count + 5 }) ∧
    (CoverNode.new (1, 7)).insert_child (0, 3) 4 =
      (Except.error MalwareBrotError.InsertBeforeNest,
       { CoverNode.new (1, 7) with cover_count := (CoverNode.new (1, 7)).cover_count + 4 }) :=
  ⟨(insert_fail_frame testNode (-1) (0, 3) 5).1 (by simp [testNode]),
   (insert_fail_frame (CoverNode.new (1, 7)) (-1) (0, 3) 4).2 rfl⟩

/-- C2: divergence exhibit. Take the leaf fixture node and a metric provider
reporting a minimum pairwise distance of 2 over {center, singles}; the scale 1
is strictly below that minimum, so by the claim (and by the function's own
doc comment, which says it verifies the points are separated by at least the
given scale) the check should return `true`, yet `check_seperation` returns
`false`: the code computes `scale > min`, the inverted comparison. -/
theorem check_seperation_inverted :
    testLeafNode.check_seperation 1 (fun _ => 2) = false ∧ (1 : ℚ) < 2 :=
  ⟨by decide, by norm_num⟩

lemma zip_map_fst_snd {α β : Type} (l : List (α × β)) :
    (l.map (fun p => p.1)).zip (l.map (fun p => p.2)) = l := by
  induction l with
  | nil => rfl
  | cons x xs ih => simp [ih]

/-- C5: loading a saved record back at the node's own scale index reproduces
the node in every field — address, radius, cover_count, singles and children —
except `singles_summary`, which is reset to the empty summary. -/
theorem save_load_roundtrip (n : CoverNode) :
    CoverNode.load n.address.1 n.save =
      { n with singles_summary := some MetaSummary.new } := by
  obtain ⟨⟨si, pi⟩, radius, cc, ss, children, singles⟩ := n
  cases children with
  | none => simp [CoverNode.save, CoverNode.load, NodeProto.new]
  | some c =>
      obtain ⟨ns, addrs⟩ := c
      simp [CoverNode.save, CoverNode.load, NodeProto.new, zip_map_fst_snd]

/-- C6: starting from `new(address)`, after any sequence of
`insert_nested_child`, `insert_child`, `insert_singleton` and
`insert_singletons` calls, the final `cover_count` equals the exact sum of the
coverage increments applied — no drift. -/
theorem cover_count_no_drift (address : NodeAddress) (ops : List InsertOp) :
    (ops.foldl applyInsert (CoverNode.new address)).cover_count =
      (ops.map InsertOp.increment).sum := by
  simp [foldl_applyInsert_cover_count, CoverNode.new]

/-- C10: `remove_children` returns the previous children structure and only
clears the `children` field; the address, radius, singles, summary and
`cover_count` (still counting the removed children's coverage) are all
unchanged. -/
theorem remove_children_frame (n : CoverNode) :
    n.remove_children.1 = n.children ∧
    n.remove_children.2.children = none ∧
    n.remove_children.2.address = n.address ∧
    n.remove_children.2.radius = n.radius ∧
    n.remove_children.2.singles_indexes = n.singles_indexes ∧
    n.remove_children.2.singles_summary = n.singles_summary ∧
    n.remove_children.2.cover_count = n.cover_count :=
  ⟨rfl, rfl, rfl, rfl, rfl, rfl, rfl⟩

lemma splitPass_close (t : ℚ) (l : List (PointIndex × ℚ)) :
    (splitPass t l).1 = l.filter (fun p => decide (p.2 < t)) := by
  induction l with
  | nil => rfl
  | cons x xs ih =>
      obtain ⟨i, d⟩ := x
      by_cases hd : d < t <;> simp [splitPass, List.filter_cons, hd, ih]

lemma splitPass_far (t : ℚ) (l : List (PointIndex × ℚ)) :
    (splitPass t l).2 =
      (l.filter (fun p => !decide (p.2 < t))).map (fun p => p.1) := by
  induction l with
  | nil => rfl
  | cons x xs ih =>
      obtain ⟨i, d⟩ := x
      by_cases hd : d < t <;> simp [splitPass, List.filter_cons, hd, ih]

lemma splitPass_perm (t : ℚ) (l : List (PointIndex × ℚ)) :
    ((splitPass t l).1.map (fun p => p.1) ++ (splitPass t l).2).Perm
      (l.map (fun p => p.1)) := by
  rw [splitPass_close, splitPass_far, ← List.map_append]
  exact (List.filter_append_perm _ l).map _

lemma not_lt_decide_eq (t : ℚ) :
    (fun p : PointIndex × ℚ => !decide (p.2 < t)) =
      (fun p : PointIndex × ℚ => decide (t ≤ p.2)) := by
  funext p
  by_cases h : p.2 < t
  · simp [h, not_le.mpr h]
  · simp [h, not_lt.mp h]

/-- C3: `split` sends exactly the members whose recorded distance is strictly
below the threshold, with those distances, to the close bucket, and exactly
the members whose recorded distance is at least the threshold to the far
bucket; each bucket preserves the original relative order, together the two
buckets are exactly the members of the original coverage (the center is
excluded from both and retained by close), all by the single linear pass. -/
theorem split_partitions (s : CoveredData) (thresh : ℚ)
    (hlen : s.coverage.length ≤ s.dists.length) :
    ((s.split thresh).1.dists.all (fun d => decide (d < thresh)) = true) ∧
    ((s.split thresh).1.coverage.zip (s.split thresh).1.dists =
      (s.coverage.zip s.dists).filter (fun p => decide (p.2 < thresh))) ∧
    ((s.split thresh).2.coverage =
      ((s.coverage.zip s.dists).filter (fun p => decide (thresh ≤ p.2))).map
        (fun p => p.1)) ∧
    List.Sublist (s.split thresh).1.coverage s.coverage ∧
    List.Sublist (s.split thresh).2.coverage s.coverage ∧
    ((s.split thresh).1.coverage ++ (s.split thresh).2.coverage).Perm
      s.coverage ∧
    (s.split thresh).1.center_index = s.center_index := by
  have hfst : (s.coverage.zip s.dists).map (fun p => p.1) = s.coverage :=
    List.map_fst_zip _ _ hlen
  have hclose :
      (s.split thresh).1.coverage =
        ((s.coverage.zip s.dists).filter
          (fun p => decide (p.2 < thresh))).map (fun p => p.1) := by
    simp [CoveredData.split, splitPass_close]
  have hcd :
      (s.split thresh).1.dists =
        ((s.coverage.zip s.dists).filter
          (fun p => decide (p.2 < thresh))).map (fun p => p.2) := by
    simp [CoveredData.split, splitPass_close]
  have hfar :
      (s.split thresh).2.coverage =
        ((s.coverage.zip s.dists).filter
          (fun p => decide (thresh ≤ p.2))).map (fun p => p.1) := by
    simp [CoveredData.split, splitPass_far, not_lt_decide_eq]
  refine ⟨?_, ?_, hfar, ?_, ?_, ?_, rfl⟩
  · rw [hcd]
    simp only [List.all_eq_true, List.mem_map, List.mem_filter,
      decide_eq_true_eq]
    rintro d ⟨⟨i, d0⟩, ⟨_, hd0⟩, rfl⟩
    exact hd0
  · rw [hclose, hcd, zip_map_fst_snd]
  · rw [hclose]
    conv_rhs => rw [← hfst]
    exact (List.filter_sublist _).map _
  · rw [hfar]
    conv_rhs => rw [← hfst]
    exact (List.filter_sublist _).map _
  · have hp := splitPass_perm thresh (s.coverage.zip s.dists)
    rw [hfst] at hp
    exact hp

lemma get_not_mem_eraseIdx {α : Type} {l : List α} {pos : Nat}
    (h : pos < l.length) (hnd : l.Nodup) :
    l.get ⟨pos, h⟩ ∉ l.eraseIdx pos := by
  have hsplit : l = l.take pos ++ l.get ⟨pos, h⟩ :: l.drop (pos + 1) := by
    rw [List.get_eq_getElem, ← List.drop_eq_getElem_cons h, List.take_append_drop]
  intro hmem
  rw [List.eraseIdx_eq_take_drop_succ] at hmem
  have hnd2 := hnd
  rw [hsplit, List.nodup_append] at hnd2
  obtain ⟨h1, h2, hdisj⟩ := hnd2
  rcases List.mem_append.1 hmem with hm | hm
  · exact hdisj hm (List.mem_cons_self _ _)
  · exact (List.nodup_cons.1 h2).1 hm

/-- C4: for every non-empty pool and every position the random source may
choose, `pick_center` returns a covered bucket whose center appears in
neither the bucket nor the residual pool; bucket and residual pool are
disjoint and together are exactly the pre-call pool minus the chosen
center. -/
theorem pick_center_partitions (u : UncoveredData) (radius : ℚ) (pos : Nat)
    (dist_to_index : PointIndex → PointIndex → ℚ)
    (hpos : pos < u.coverage.length) (hnd : u.coverage.Nodup) :
    ∃ close rest,
      u.pick_center radius pos dist_to_index = some (close, rest) ∧
      close.center_index = u.coverage.getD pos 0 ∧
      close.center_index ∉ close.coverage ∧
      close.center_index ∉ rest.coverage ∧
      (∀ i ∈ close.coverage, i ∉ rest.coverage) ∧
      (close.coverage ++ rest.coverage).Perm (u.coverage.eraseIdx pos) := by
  have hc : u.coverage.get ⟨pos, hpos⟩ = u.coverage.getD pos 0 := by
    rw [List.getD_eq_getElem _ _ hpos, List.get_eq_getElem]
  have hpick : u.pick_center radius pos dist_to_index =
      some
        (⟨(splitPass radius
              ((u.coverage.eraseIdx pos).zip
                ((u.coverage.eraseIdx pos).map
                  (dist_to_index (u.coverage.get ⟨pos, hpos⟩))))).1.map
            (fun p => p.2),
          (splitPass radius
              ((u.coverage.eraseIdx pos).zip
                ((u.coverage.eraseIdx pos).map
                  (dist_to_index (u.coverage.get ⟨pos, hpos⟩))))).1.map
            (fun p => p.1),
          u.coverage.get ⟨pos, hpos⟩⟩,
         ⟨(splitPass radius
              ((u.coverage.eraseIdx pos).zip
                ((u.coverage.eraseIdx pos).map
                  (dist_to_index (u.coverage.get ⟨pos, hpos⟩))))).2⟩) :=
    dif_pos hpos
  have hfst :
      ((u.coverage.eraseIdx pos).zip
          ((u.coverage.eraseIdx pos).map
            (dist_to_index (u.coverage.get ⟨pos, hpos⟩)))).map (fun p => p.1) =
        u.coverage.eraseIdx pos :=
    List.map_fst_zip _ _ (by simp)
  have hnd0 : (u.coverage.eraseIdx pos).Nodup := hnd.eraseIdx pos
  have hcm : u.coverage.get ⟨pos, hpos⟩ ∉ u.coverage.eraseIdx pos :=
    get_not_mem_eraseIdx hpos hnd
  have hsubc :
      ((splitPass radius
          ((u.coverage.eraseIdx pos).zip
            ((u.coverage.eraseIdx pos).map
              (dist_to_index (u.coverage.get ⟨pos, hpos⟩))))).1.map
        (fun p => p.1)).Sublist (u.coverage.eraseIdx pos) := by
    rw [splitPass_close]
    conv_rhs => rw [← hfst]
    exact (List.filter_sublist _).map _
  have hsubf :
      ((splitPass radius
          ((u.coverage.eraseIdx pos).zip
            ((u.coverage.eraseIdx pos).map
              (dist_to_index (u.coverage.get ⟨pos, hpos⟩))))).2).Sublist
        (u.coverage.eraseIdx pos) := by
    rw [splitPass_far]
    conv_rhs => rw [← hfst]
    exact (List.filter_sublist _).map _
  have hperm :
      ((splitPass radius
          ((u.coverage.eraseIdx pos).zip
            ((u.coverage.eraseIdx pos).map
              (dist_to_index (u.coverage.get ⟨pos, hpos⟩))))).1.map
          (fun p => p.1) ++
        (splitPass radius
          ((u.coverage.eraseIdx pos).zip
            ((u.coverage.eraseIdx pos).map
              (dist_to_index (u.coverage.get ⟨pos, hpos⟩))))).2).Perm
        (u.coverage.eraseIdx pos) := by
    have hp := splitPass_perm radius
      ((u.coverage.eraseIdx pos).zip
        ((u.coverage.eraseIdx pos).map
          (dist_to_index (u.coverage.get ⟨pos, hpos⟩))))
    rwa [hfst] at hp
  have hndcf := (hperm.symm.nodup hnd0)
  rw [List.nodup_append] at hndcf
  refine ⟨_, _, hpick, hc, ?_, ?_, ?_, hperm⟩
  · intro hmem
    exact hcm (hsubc.subset hmem)
  · intro hmem
    exact hcm (hsubf.subset hmem)
  · intro i hi hir
    exact hndcf.2.2 hi hir

/-- C9: the construction entry points are partial on empty input. With the
Rust panic modelled as `none`: `pick_center` returns `none` for every
position when its pool is empty, succeeds whenever the pool can supply the
drawn position (hence on every non-empty pool for the positions the random
source produces), and `CoveredData::new` returns `none` exactly when the
metric provider's reference index list is empty. -/
theorem construction_requires_nonempty :
    (∀ (u : UncoveredData) (radius : ℚ) (pos : Nat)
        (f : PointIndex → PointIndex → ℚ),
       u.coverage = [] → u.pick_center radius pos f = none) ∧
    (∀ (u : UncoveredData) (radius : ℚ) (pos : Nat)
        (f : PointIndex → PointIndex → ℚ),
       pos < u.coverage.length → (u.pick_center radius pos f).isSome = true) ∧
    (∀ (refs : List PointIndex) (f : PointIndex → PointIndex → ℚ),
       CoveredData.new refs f = none ↔ refs = []) := by
  refine ⟨?_, ?_, ?_⟩
  · intro u radius pos f hu
    have hn : ¬ pos < u.coverage.length := by simp [hu]
    exact dif_neg hn
  · intro u radius pos f hpos
    unfold UncoveredData.pick_center
    rw [dif_pos hpos]
    rfl
  · intro refs f
    cases h : refs.getLast? with
    | none =>
        simp only [CoveredData.new, h]
        simp [List.getLast?_eq_none_iff.mp h]
    | some c =>
        simp only [CoveredData.new, h]
        constructor
        · intro hc
          simp at hc
        · intro hc
          subst hc
          simp at h

/-- C3 witness at a concrete bucket and threshold. -/
theorem split_partitions_witness :
    (CoveredData.mk [2, 4, 1] [10, 11, 12] 7).coverage.length ≤
      (CoveredData.mk [2, 4, 1] [10, 11, 12] 7).dists.length ∧
    (((CoveredData.mk [2, 4, 1] [10, 11, 12] 7).split 3).1.dists.all
        (fun d => decide (d < 3)) = true) ∧
    (((CoveredData.mk [2, 4, 1] [10, 11, 12] 7).split 3).1.coverage.zip
        ((CoveredData.mk [2, 4, 1] [10, 11, 12] 7).split 3).1.dists =
      ((CoveredData.mk [2, 4, 1] [10, 11, 12] 7).coverage.zip
          (CoveredData.mk [2, 4, 1] [10, 11, 12] 7).dists).filter
        (fun p => decide (p.2 < 3))) ∧
    (((CoveredData.mk [2, 4, 1] [10, 11, 12] 7).split 3).2.coverage =
      (((CoveredData.mk [2, 4, 1] [10, 11, 12] 7).coverage.zip
          (CoveredData.mk [2, 4, 1] [10, 11, 12] 7).dists).filter
        (fun p => decide ((3 : ℚ) ≤ p.2))).map (fun p => p.1)) ∧
    List.Sublist ((CoveredData.mk [2, 4, 1] [10, 11, 12] 7).split 3).1.coverage
      (CoveredData.mk [2, 4, 1] [10, 11, 12] 7).coverage ∧
    List.Sublist ((CoveredData.mk [2, 4, 1] [10, 11, 12] 7).split 3).2.coverage
      (CoveredData.mk [2, 4, 1] [10, 11, 12] 7).coverage ∧
    (((CoveredData.mk [2, 4, 1] [10, 11, 12] 7).split 3).1.coverage ++
        ((CoveredData.mk [2, 4, 1] [10, 11, 12] 7).split 3).2.coverage).Perm
      (CoveredData.mk [2, 4, 1] [10, 11, 12] 7).coverage ∧
    ((CoveredData.mk [2, 4, 1] [10, 11, 12] 7).split 3).1.center_index =
      (CoveredData.mk [2, 4, 1] [10, 11, 12] 7).center_index :=
  ⟨by decide, split_partitions (CoveredData.mk [2, 4, 1] [10, 11, 12] 7) 3 (by decide)⟩

/-- C4 witness at a concrete pool, radius, position and distance oracle. -/
theorem pick_center_partitions_witness :
    1 < (UncoveredData.mk [3, 1, 4]).coverage.length ∧
    (UncoveredData.mk [3, 1, 4]).coverage.Nodup ∧
    (∃ close rest,
      (UncoveredData.mk [3, 1, 4]).pick_center 3 1 distOracle =
        some (close, rest) ∧
      close.center_index = (UncoveredData.mk [3, 1, 4]).coverage.getD 1 0 ∧
      close.center_index ∉ close.coverage ∧
      close.center_index ∉ rest.coverage ∧
      (∀ i ∈ close.coverage, i ∉ rest.coverage) ∧
      (close.coverage ++ rest.coverage).Perm
        ((UncoveredData.mk [3, 1, 4]).coverage.eraseIdx 1)) :=
  ⟨by decide, by decide,
   pick_center_partitions (UncoveredData.mk [3, 1, 4]) 3 1 distOracle
     (by decide) (by decide)⟩

/-- C9 witness: concrete empty and singleton pools. -/
theorem construction_requires_nonempty_witness :
    (UncoveredData.mk []).pick_center 1 0 distOracle = none ∧
    ((UncoveredData.mk [5]).pick_center 1 0 distOracle).isSome = true ∧
    CoveredData.new [] distOracle = none :=
  ⟨construction_requires_nonempty.1 (UncoveredData.mk []) 1 0 distOracle rfl,
   construction_requires_nonempty.2.1 (UncoveredData.mk [5]) 1 0 distOracle
     (by decide),
   (construction_requires_nonempty.2.2 [] distOracle).mpr rfl⟩

/-- C7: with a fresh offer trace, `knn` offers the node's own center (with its
distance to the query point) as a best-k candidate exactly on a true leaf; on
a routing node whose center is not among its singles (address uniqueness), the
center is never offered as a best-k candidate. -/
theorem knn_offers_center_iff_leaf (n : CoverNode) (f : PointIndex → ℚ)
    (heap : KnnQueryHeap) (hoff : heap.offered = [])
    (hcs : n.address.2 ∉ n.singles_indexes) :
    (n.is_leaf = true →
      (n.address.2, f n.address.2) ∈ (n.knn none f heap).offered) ∧
    (n.is_leaf = false →
      ∀ d, (n.address.2, d) ∉ (n.knn none f heap).offered) := by
  cases hch : n.children with
  | none =>
      constructor
      · intro _
        simp [CoverNode.knn, CoverNode.singleton_knn, CoverNode.child_knn,
          KnnQueryHeap.push_outliers, hch, hoff]
      · intro hleaf
        simp [CoverNode.is_leaf, hch] at hleaf
  | some c =>
      constructor
      · intro hleaf
        simp [CoverNode.is_leaf, hch] at hleaf
      · intro hlf d hmem
        have hoffered : (n.knn none f heap).offered =
            n.singles_indexes.zip (n.singles_indexes.map f) := by
          simp [CoverNode.knn, CoverNode.singleton_knn, CoverNode.child_knn,
            KnnQueryHeap.push_outliers, KnnQueryHeap.push_nodes, hch, hoff]
        rw [hoffered] at hmem
        exact hcs (List.of_mem_zip hmem).1

lemma insertCandidate_length (l : List (ℚ × PointIndex)) (c : ℚ × PointIndex) :
    (insertCandidate l c).length = l.length + 1 := by
  induction l with
  | nil => rfl
  | cons x xs ih =>
      by_cases h : c.1 < x.1 <;> simp [insertCandidate, h, ih]

lemma foldl_insertCandidate_length (pairs : List (PointIndex × ℚ))
    (acc : List (ℚ × PointIndex)) :
    (pairs.foldl (fun acc p => insertCandidate acc (p.2, p.1)) acc).length =
      acc.length + pairs.length := by
  induction pairs generalizing acc with
  | nil => simp
  | cons p ps ih => simp [ih, insertCandidate_length]; omega

/-- C8: one `knn` call on a routing node starting from an empty heap leaves
exactly `len(siblings) + 1` entries on the node-priority queue — the nested
child followed by the siblings — and the best-k candidate count equals the
number of singles bounded by the heap capacity k. -/
theorem knn_mixed_node_counts (n : CoverNode) (c : NodeChildren)
    (f : PointIndex → ℚ) (k : Nat) (hch : n.children = some c) :
    ((n.knn none f (KnnQueryHeap.empty k)).node_len =
      c.addresses.length + 1) ∧
    ((n.knn none f (KnnQueryHeap.empty k)).nodes.map (fun e => e.1) =
      (c.nested_scale, n.address.2) :: c.addresses) ∧
    ((n.knn none f (KnnQueryHeap.empty k)).len =
      min n.singles_indexes.length k) := by
  have hmz : (c.addresses.zip
      (c.addresses.map (fun a => f a.2))).map (fun p => p.1) = c.addresses :=
    List.map_fst_zip _ _ (by simp)
  refine ⟨?_, ?_, ?_⟩
  · simp [CoverNode.knn, CoverNode.singleton_knn, CoverNode.child_knn, hch,
      KnnQueryHeap.push_outliers, KnnQueryHeap.push_nodes,
      KnnQueryHeap.node_len, KnnQueryHeap.empty]
  · simp only [CoverNode.knn, CoverNode.singleton_knn, CoverNode.child_knn,
      hch, KnnQueryHeap.push_outliers, KnnQueryHeap.push_nodes,
      KnnQueryHeap.empty, Option.isNone_some, Bool.false_eq_true, if_false,
      Option.getD_some]
    simpa [List.map_map, Function.comp_def] using hmz
  · simp [CoverNode.knn, CoverNode.singleton_knn, CoverNode.child_knn, hch,
      KnnQueryHeap.push_outliers, KnnQueryHeap.push_nodes, KnnQueryHeap.len,
      KnnQueryHeap.empty, foldl_insertCandidate_length, List.length_take]
    omega

/-- C7 witness at the leaf and routing fixture nodes. -/
theorem knn_offers_center_iff_leaf_witness :
    (KnnQueryHeap.empty 5).offered = [] ∧
    testLeafNode.address.2 ∉ testLeafNode.singles_indexes ∧
    ((testLeafNode.is_leaf = true →
      (testLeafNode.address.2, distToQuery testLeafNode.address.2) ∈
        (testLeafNode.knn none distToQuery (KnnQueryHeap.empty 5)).offered) ∧
    (testLeafNode.is_leaf = false →
      ∀ d, (testLeafNode.address.2, d) ∉
        (testLeafNode.knn none distToQuery (KnnQueryHeap.empty 5)).offered)) :=
  ⟨rfl, by decide,
   knn_offers_center_iff_leaf testLeafNode distToQuery (KnnQueryHeap.empty 5)
     rfl (by decide)⟩

/-- C8 witness at the routing fixture node with capacity 5. -/
theorem knn_mixed_node_counts_witness :
    testNode.children = some (NodeChildren.mk 0 [(-4, 1), (-4, 2), (-4, 3)]) ∧
    (((testNode.knn none distToQuery (KnnQueryHeap.empty 5)).node_len =
      (NodeChildren.mk 0 [(-4, 1), (-4, 2), (-4, 3)]).addresses.length + 1) ∧
    ((testNode.knn none distToQuery (KnnQueryHeap.empty 5)).nodes.map
        (fun e => e.1) =
      ((NodeChildren.mk 0 [(-4, 1), (-4, 2), (-4, 3)]).nested_scale,
        testNode.address.2) ::
        (NodeChildren.mk 0 [(-4, 1), (-4, 2), (-4, 3)]).addresses) ∧
    ((testNode.knn none distToQuery (KnnQueryHeap.empty 5)).len =
      min testNode.singles_indexes.length 5)) :=
  ⟨rfl,
   knn_mixed_node_counts testNode (NodeChildren.mk 0 [(-4, 1), (-4, 2), (-4, 3)])
     distToQuery 5 rfl⟩
